import Mathlib

/-!
Verification of the SHE (somewhat homomorphic encryption) scheme layer of
syohex/she-rust.  The Rust crate (src/lib.rs) declares the scheme operations
(sheGetPublicKey, sheEncG1/G2/GT, sheDecG1/G2/GT, sheAddG1/G2/GT,
sheSubG1/G2/GT, sheMulG1/G2/GT, sheMul) as foreign functions of the mcl
library and defines the repr(C) data structures (Fr, G1, G2, GT, SecretKey,
PublicKey, CipherTextG1/G2/GT).  The operations themselves are not in the
repository, so they are modelled here from the specification: the three
pairing groups are cyclic of prime-free order q and every group element is
represented by its discrete logarithm with respect to the group generator
(an element of ZMod q); the bilinear pairing then maps exponents a and b to
the exponent a * b over the base pairing value e(P, Q).
-/

namespace SHE

/-- Modelled from the spec: the generator Base of each group, in exponent
representation (P, Q and e(P, Q) all have exponent 1). -/
def gen (q : ℕ) : ZMod q := 1

/-- Modelled from the spec: error taxonomy of section 7. -/
inductive SheError where
  | RandomnessFailure : SheError
  | PlaintextRangeError : SheError
  | MalformedCiphertext : SheError
  | MalformedKey : SheError
  | PlaintextOutOfRange : SheError
deriving DecidableEq, Repr

/-- The SecretKey of src/lib.rs: a pair of scalars (x, y), in the scalar
field of the curve, modelled as ZMod q. -/
structure SecretKey (q : ℕ) where
  x : ZMod q
  y : ZMod q
deriving DecidableEq, Repr

/-- The PublicKey of src/lib.rs: the pair (xP, yQ), each element kept in
exponent representation. -/
structure PublicKey (q : ℕ) where
  xP : ZMod q
  yQ : ZMod q
deriving DecidableEq, Repr

/-- The CipherTextG1 of src/lib.rs: a pair (S, T) of G1 elements, in
exponent representation. -/
structure CipherTextG1 (q : ℕ) where
  S : ZMod q
  T : ZMod q
deriving DecidableEq, Repr

/-- The CipherTextG2 of src/lib.rs: a pair (S, T) of G2 elements, in
exponent representation. -/
structure CipherTextG2 (q : ℕ) where
  S : ZMod q
  T : ZMod q
deriving DecidableEq, Repr

/-- The CipherTextGT of src/lib.rs: four GT elements (g0, g1, g2, g3), in
exponent representation over the base pairing value e(P, Q). -/
structure CipherTextGT (q : ℕ) where
  g0 : ZMod q
  g1 : ZMod q
  g2 : ZMod q
  g3 : ZMod q
deriving DecidableEq, Repr

/-- Modelled from the spec: sheGetPublicKey derives (x·P, y·Q) from the
secret key by scalar multiplication of the generators; declared only as a
foreign function in src/lib.rs. -/
def sheGetPublicKey {q : ℕ} (sec : SecretKey q) : PublicKey q :=
  ⟨sec.x * gen q, sec.y * gen q⟩

/-- Modelled from the spec: sheEncG1 rejects m outside [-B, B] with
PlaintextRangeError, otherwise draws a blinding scalar r and returns
(S, T) = (r·P, m·P + r·xP); declared only as a foreign function in
src/lib.rs.  The blinding scalar is passed explicitly. -/
def sheEncG1 {q : ℕ} (B : ℕ) (pk : PublicKey q) (m : ℤ) (r : ZMod q) :
    Except SheError (CipherTextG1 q) :=
  if m.natAbs ≤ B then
    Except.ok ⟨r * gen q, (m : ZMod q) * gen q + r * pk.xP⟩
  else
    Except.error SheError.PlaintextRangeError

/-- Modelled from the spec: sheEncG2, as sheEncG1 with generator Q and
public component yQ. -/
def sheEncG2 {q : ℕ} (B : ℕ) (pk : PublicKey q) (m : ℤ) (r : ZMod q) :
    Except SheError (CipherTextG2 q) :=
  if m.natAbs ≤ B then
    Except.ok ⟨r * gen q, (m : ZMod q) * gen q + r * pk.yQ⟩
  else
    Except.error SheError.PlaintextRangeError

/-- Modelled from the spec: sheEncGT encrypts directly into GT, with both
public components combined; the four GT components carry the identity, the
two blindings r1·e(P,Q) and r2·e(P,Q), and m·e(P,Q) + r1·e(xP,Q) +
r2·e(P,yQ).  Rejects m outside [-B, B] with PlaintextRangeError. -/
def sheEncGT {q : ℕ} (B : ℕ) (pk : PublicKey q) (m : ℤ) (r1 r2 : ZMod q) :
    Except SheError (CipherTextGT q) :=
  if m.natAbs ≤ B then
    Except.ok ⟨0, r1 * gen q, r2 * gen q,
      (m : ZMod q) * gen q + r1 * pk.xP + r2 * pk.yQ⟩
  else
    Except.error SheError.PlaintextRangeError

/-- Modelled from the spec: the candidate order of the bounded discrete-log
search, probing both search directions up to the bound B. -/
def searchCandidates (B : ℕ) : List ℤ :=
  (List.range (B + 1)).flatMap (fun j => [(j : ℤ), -(j : ℤ)])

/-- Modelled from the spec: the Discrete-Log Recoverer.  Given V = m·Base it
recovers the unique m in [-B, B], probing both search directions; returns
none when both directions up to B are exhausted without a match. -/
def dlogSearch (q B : ℕ) (V : ZMod q) : Option ℤ :=
  (searchCandidates B).find? (fun m => decide ((m : ZMod q) = V))

/-- Modelled from the spec: decryption outcome; an exhausted search is the
PlaintextOutOfRange failure. -/
def decResult (q B : ℕ) (V : ZMod q) : Except SheError ℤ :=
  match dlogSearch q B V with
  | some m => Except.ok m
  | none => Except.error SheError.PlaintextOutOfRange

/-- Modelled from the spec: sheDecG1 removes the blinding, V = T - x·S, then
runs the bounded discrete-log search; declared only as a foreign function in
src/lib.rs. -/
def sheDecG1 {q : ℕ} (B : ℕ) (sec : SecretKey q) (c : CipherTextG1 q) :
    Except SheError ℤ :=
  decResult q B (c.T - sec.x * c.S)

/-- Modelled from the spec: sheDecG2, as sheDecG1 with the scalar y. -/
def sheDecG2 {q : ℕ} (B : ℕ) (sec : SecretKey q) (c : CipherTextG2 q) :
    Except SheError ℤ :=
  decResult q B (c.T - sec.y * c.S)

/-- Modelled from the spec: sheDecGT eliminates both scalars across the four
components, V = g3 - x·g1 - y·g2 + x·y·g0, then runs the same search. -/
def sheDecGT {q : ℕ} (B : ℕ) (sec : SecretKey q) (c : CipherTextGT q) :
    Except SheError ℤ :=
  decResult q B (c.g3 - sec.x * c.g1 - sec.y * c.g2 + sec.x * sec.y * c.g0)

/-- Modelled from the spec: sheAddG1 is component-wise group addition. -/
def sheAddG1 {q : ℕ} (x y : CipherTextG1 q) : CipherTextG1 q :=
  ⟨x.S + y.S, x.T + y.T⟩

/-- Modelled from the spec: sheAddG2 is component-wise group addition. -/
def sheAddG2 {q : ℕ} (x y : CipherTextG2 q) : CipherTextG2 q :=
  ⟨x.S + y.S, x.T + y.T⟩

/-- Modelled from the spec: sheAddGT is component-wise group addition of the
four GT components (GT written additively in exponent representation). -/
def sheAddGT {q : ℕ} (x y : CipherTextGT q) : CipherTextGT q :=
  ⟨x.g0 + y.g0, x.g1 + y.g1, x.g2 + y.g2, x.g3 + y.g3⟩

/-- Modelled from the spec: sheSubG1 is add with component-wise negation. -/
def sheSubG1 {q : ℕ} (x y : CipherTextG1 q) : CipherTextG1 q :=
  ⟨x.S - y.S, x.T - y.T⟩

/-- Modelled from the spec: sheSubG2 is add with component-wise negation. -/
def sheSubG2 {q : ℕ} (x y : CipherTextG2 q) : CipherTextG2 q :=
  ⟨x.S - y.S, x.T - y.T⟩

/-- Modelled from the spec: sheSubGT is add with component-wise negation. -/
def sheSubGT {q : ℕ} (x y : CipherTextGT q) : CipherTextGT q :=
  ⟨x.g0 - y.g0, x.g1 - y.g1, x.g2 - y.g2, x.g3 - y.g3⟩

/-- Modelled from the spec: sheMulG1 is component-wise scalar
multiplication by the public integer k. -/
def sheMulG1 {q : ℕ} (x : CipherTextG1 q) (k : ℤ) : CipherTextG1 q :=
  ⟨(k : ZMod q) * x.S, (k : ZMod q) * x.T⟩

/-- Modelled from the spec: sheMulG2 is component-wise scalar
multiplication by the public integer k. -/
def sheMulG2 {q : ℕ} (x : CipherTextG2 q) (k : ℤ) : CipherTextG2 q :=
  ⟨(k : ZMod q) * x.S, (k : ZMod q) * x.T⟩

/-- Modelled from the spec: sheMulGT is component-wise scalar
multiplication by the public integer k. -/
def sheMulGT {q : ℕ} (x : CipherTextGT q) (k : ℤ) : CipherTextGT q :=
  ⟨(k : ZMod q) * x.g0, (k : ZMod q) * x.g1,
   (k : ZMod q) * x.g2, (k : ZMod q) * x.g3⟩

/-- Modelled from the spec: sheMul, the pairing lift, computes the four
pairings of cross terms pair(Sx,Sy), pair(Sx,Ty), pair(Tx,Sy), pair(Tx,Ty);
the pairing multiplies exponents. -/
def sheMul {q : ℕ} (x : CipherTextG1 q) (y : CipherTextG2 q) :
    CipherTextGT q :=
  ⟨x.S * y.S, x.S * y.T, x.T * y.S, x.T * y.T⟩

/-- Modelled from the spec: fixed-width little-endian byte encoding of a
field-element value; w is the curve-dependent field-element width. -/
def natToBytes : ℕ → ℕ → List ℕ
  | 0, _ => []
  | w + 1, v => v % 256 :: natToBytes w (v / 256)

/-- Modelled from the spec: decoding of a little-endian byte sequence. -/
def bytesToNat : List ℕ → ℕ
  | [] => 0
  | b :: bs => b + 256 * bytesToNat bs

/-- Modelled from the spec: the canonical fixed-width serialization of one
group element / scalar (its exponent value), w bytes. -/
def serializeElem {q : ℕ} (w : ℕ) (a : ZMod q) : List ℕ :=
  natToBytes w a.val

/-- Modelled from the spec: deserialization of one group element with
membership validation; rejects a wrong length, a non-byte entry, or a value
outside the group. -/
def deserializeElem (q w : ℕ) (bs : List ℕ) : Except SheError (ZMod q) :=
  if bs.length = w ∧ (∀ b ∈ bs, b < 256) ∧ bytesToNat bs < q then
    Except.ok ((bytesToNat bs : ℕ) : ZMod q)
  else
    Except.error SheError.MalformedCiphertext

/-- Modelled from the spec: concatenation of the fixed-width encodings of a
sequence of components, in field order. -/
def serializeElems {q : ℕ} (w : ℕ) (xs : List (ZMod q)) : List ℕ :=
  xs.flatMap (serializeElem w)

/-- Modelled from the spec: parse exactly n fixed-width components. -/
def deserializeElems (q w : ℕ) : ℕ → List ℕ → Except SheError (List (ZMod q))
  | 0, bs => if bs = [] then Except.ok [] else
      Except.error SheError.MalformedCiphertext
  | n + 1, bs =>
      match deserializeElem q w (bs.take w), deserializeElems q w n (bs.drop w) with
      | Except.ok a, Except.ok ys => Except.ok (a :: ys)
      | _, _ => Except.error SheError.MalformedCiphertext

/-- Modelled from the spec: serialization of a SecretKey, the concatenation
of its two scalar encodings. -/
def SecretKey.serialize {q : ℕ} (w : ℕ) (k : SecretKey q) : List ℕ :=
  serializeElems w [k.x, k.y]

/-- Modelled from the spec: deserialization of a SecretKey. -/
def SecretKey.deserialize (q w : ℕ) (bs : List ℕ) :
    Except SheError (SecretKey q) :=
  match deserializeElems q w 2 bs with
  | Except.ok [x, y] => Except.ok ⟨x, y⟩
  | _ => Except.error SheError.MalformedKey

/-- Modelled from the spec: serialization of a PublicKey, the concatenation
of its two component encodings. -/
def PublicKey.serialize {q : ℕ} (w : ℕ) (k : PublicKey q) : List ℕ :=
  serializeElems w [k.xP, k.yQ]

/-- Modelled from the spec: deserialization of a PublicKey. -/
def PublicKey.deserialize (q w : ℕ) (bs : List ℕ) :
    Except SheError (PublicKey q) :=
  match deserializeElems q w 2 bs with
  | Except.ok [x, y] => Except.ok ⟨x, y⟩
  | _ => Except.error SheError.MalformedKey

/-- Modelled from the spec: serialization of a CipherTextG1, S then T. -/
def CipherTextG1.serialize {q : ℕ} (w : ℕ) (c : CipherTextG1 q) : List ℕ :=
  serializeElems w [c.S, c.T]

/-- Modelled from the spec: deserialization of a CipherTextG1. -/
def CipherTextG1.deserialize (q w : ℕ) (bs : List ℕ) :
    Except SheError (CipherTextG1 q) :=
  match deserializeElems q w 2 bs with
  | Except.ok [s, t] => Except.ok ⟨s, t⟩
  | _ => Except.error SheError.MalformedCiphertext

/-- Modelled from the spec: serialization of a CipherTextG2, S then T. -/
def CipherTextG2.serialize {q : ℕ} (w : ℕ) (c : CipherTextG2 q) : List ℕ :=
  serializeElems w [c.S, c.T]

/-- Modelled from the spec: deserialization of a CipherTextG2. -/
def CipherTextG2.deserialize (q w : ℕ) (bs : List ℕ) :
    Except SheError (CipherTextG2 q) :=
  match deserializeElems q w 2 bs with
  | Except.ok [s, t] => Except.ok ⟨s, t⟩
  | _ => Except.error SheError.MalformedCiphertext

/-- Modelled from the spec: serialization of a CipherTextGT, the four GT
components in index order. -/
def CipherTextGT.serialize {q : ℕ} (w : ℕ) (c : CipherTextGT q) : List ℕ :=
  serializeElems w [c.g0, c.g1, c.g2, c.g3]

/-- Modelled from the spec: deserialization of a CipherTextGT. -/
def CipherTextGT.deserialize (q w : ℕ) (bs : List ℕ) :
    Except SheError (CipherTextGT q) :=
  match deserializeElems q w 4 bs with
  | Except.ok [a, b, c, d] => Except.ok ⟨a, b, c, d⟩
  | _ => Except.error SheError.MalformedCiphertext

end SHE

namespace Mcl

/-- MCLBN_FR_UNIT_SIZE from src/lib.rs: the number of 64-bit limbs of an
Fr value. -/
def MCLBN_FR_UNIT_SIZE : ℕ := 4

/-- The Fr struct of src/lib.rs: an array of MCLBN_FR_UNIT_SIZE 64-bit
limbs; the derived Default is the all-zero array. -/
structure Fr where
  d : Fin MCLBN_FR_UNIT_SIZE → ℕ
deriving DecidableEq

/-- The derived Default value of Fr from src/lib.rs: all limbs zero. -/
def Fr.default : Fr := ⟨fun _ => 0⟩

/-- The SecretKey struct of src/lib.rs: the pair of Fr scalars x and y. -/
structure SecretKey where
  x : Fr
  y : Fr
deriving DecidableEq

/-- The derived Default value of SecretKey from src/lib.rs. -/
def SecretKey.default : SecretKey := ⟨Fr.default, Fr.default⟩

/-- SecretKey::zero from common_impl in src/lib.rs: Default::default(). -/
def SecretKey.zero : SecretKey := SecretKey.default

/-- SecretKey::clear from common_impl in src/lib.rs: the mutation
*self = zero is modelled by returning the new value of self. -/
def SecretKey.clear (_s : SecretKey) : SecretKey := SecretKey.zero

end Mcl

namespace SHE

lemma natToBytes_length : ∀ w v, (natToBytes w v).length = w
  | 0, _ => rfl
  | w + 1, v => by
      simp only [natToBytes, List.length_cons, natToBytes_length w]

lemma natToBytes_lt : ∀ w v, ∀ b ∈ natToBytes w v, b < 256
  | 0, _ => by intro b hb; simp [natToBytes] at hb
  | w + 1, v => by
      intro b hb
      simp only [natToBytes, List.mem_cons] at hb
      rcases hb with rfl | hb
      · exact Nat.mod_lt v (by norm_num)
      · exact natToBytes_lt w (v / 256) b hb

lemma bytesToNat_natToBytes : ∀ w v, v < 256 ^ w →
    bytesToNat (natToBytes w v) = v
  | 0, v, hv => by
      interval_cases v
      rfl
  | w + 1, v, hv => by
      have hdiv : v / 256 < 256 ^ w := by
        rw [Nat.div_lt_iff_lt_mul (by norm_num : 0 < 256)]
        calc v < 256 ^ (w + 1) := hv
          _ = 256 ^ w * 256 := by ring
      simp only [natToBytes, bytesToNat,
        bytesToNat_natToBytes w (v / 256) hdiv]
      omega

lemma take_append_of_length {α : Type} {n : ℕ} (l1 l2 : List α)
    (h : l1.length = n) : (l1 ++ l2).take n = l1 := by
  subst h
  simp

lemma drop_append_of_length {α : Type} {n : ℕ} (l1 l2 : List α)
    (h : l1.length = n) : (l1 ++ l2).drop n = l2 := by
  subst h
  simp

lemma mem_searchCandidates {B : ℕ} {m : ℤ} :
    m ∈ searchCandidates B ↔ m.natAbs ≤ B := by
  constructor
  · intro h
    rcases List.mem_flatMap.mp h with ⟨j, hj, hm⟩
    rw [List.mem_range] at hj
    simp only [List.mem_cons, List.not_mem_nil, or_false] at hm
    rcases hm with rfl | rfl <;> simp <;> omega
  · intro h
    refine List.mem_flatMap.mpr ⟨m.natAbs, ?_, ?_⟩
    · rw [List.mem_range]; omega
    · rcases Int.natAbs_eq m with h1 | h1 <;>
        simp only [List.mem_cons, List.not_mem_nil, or_false]
      · left; exact h1
      · right; omega

lemma small_intCast_inj {q B : ℕ} (hq : 2 * B < q) {a b : ℤ}
    (ha : a.natAbs ≤ B) (hb : b.natAbs ≤ B)
    (h : (a : ZMod q) = (b : ZMod q)) : a = b := by
  haveI : NeZero q := ⟨by omega⟩
  have hd : (q : ℤ) ∣ a - b := by
    rwa [← sub_eq_zero, ← Int.cast_sub,
      ZMod.intCast_zmod_eq_zero_iff_dvd] at h
  rcases hd with ⟨k, hk⟩
  have hk0 : k = 0 := by
    by_contra hne
    have h1 : 1 ≤ k.natAbs := by omega
    have h2 : (a - b).natAbs = q * k.natAbs := by
      rw [hk, Int.natAbs_mul, Int.natAbs_ofNat]
    have h3 : q ≤ (a - b).natAbs := by
      calc q = q * 1 := by omega
        _ ≤ q * k.natAbs := Nat.mul_le_mul_left q h1
        _ = (a - b).natAbs := h2.symm
    omega
  rw [hk0, mul_zero] at hk
  omega

lemma dlogSearch_intCast {q B : ℕ} (hq : 2 * B < q) {m : ℤ}
    (hm : m.natAbs ≤ B) : dlogSearch q B ((m : ZMod q)) = some m := by
  have hmem : m ∈ searchCandidates B := mem_searchCandidates.mpr hm
  have hsome : ((searchCandidates B).find?
      (fun a : ℤ => decide ((a : ZMod q) = (m : ZMod q)))).isSome := by
    rw [List.find?_isSome]
    exact ⟨m, hmem, by simp⟩
  rw [dlogSearch]
  obtain ⟨a, ha⟩ := Option.isSome_iff_exists.mp hsome
  rw [ha]
  have hpa : ((a : ZMod q) = (m : ZMod q)) := by
    have := List.find?_some ha
    exact of_decide_eq_true this
  have hamem : a ∈ searchCandidates B := List.mem_of_find?_eq_some ha
  have haB : a.natAbs ≤ B := mem_searchCandidates.mp hamem
  rw [small_intCast_inj hq haB hm hpa]

lemma dlogSearch_eq_none {q B : ℕ} {V : ZMod q}
    (h : ∀ j : ℤ, j.natAbs ≤ B → (j : ZMod q) ≠ V) :
    dlogSearch q B V = none := by
  rw [dlogSearch, List.find?_eq_none]
  intro a hamem
  have haB : a.natAbs ≤ B := mem_searchCandidates.mp hamem
  simp only [decide_eq_true_eq]
  exact h a haB

lemma decResult_eq_ok {q B : ℕ} (hq : 2 * B < q) {V : ZMod q} {m : ℤ}
    (hm : m.natAbs ≤ B) (hV : V = (m : ZMod q)) :
    decResult q B V = Except.ok m := by
  rw [decResult, hV, dlogSearch_intCast hq hm]

lemma decResult_eq_error {q B : ℕ} {V : ZMod q}
    (h : ∀ j : ℤ, j.natAbs ≤ B → (j : ZMod q) ≠ V) :
    decResult q B V = Except.error SheError.PlaintextOutOfRange := by
  rw [decResult, dlogSearch_eq_none h]

lemma deserializeElem_serializeElem {q w : ℕ} (hq : 0 < q)
    (hw : q ≤ 256 ^ w) (a : ZMod q) :
    deserializeElem q w (serializeElem w a) = Except.ok a := by
  haveI : NeZero q := ⟨by omega⟩
  have hval : a.val < q := ZMod.val_lt a
  have hvw : a.val < 256 ^ w := lt_of_lt_of_le hval hw
  rw [serializeElem, deserializeElem, if_pos, bytesToNat_natToBytes w a.val hvw]
  · rw [ZMod.natCast_rightInverse a]
  · refine ⟨natToBytes_length w a.val, natToBytes_lt w a.val, ?_⟩
    rw [bytesToNat_natToBytes w a.val hvw]
    exact hval

lemma deserializeElems_serializeElems {q w : ℕ} (hq : 0 < q)
    (hw : q ≤ 256 ^ w) :
    ∀ (xs : List (ZMod q)) (n : ℕ), xs.length = n →
      deserializeElems q w n (serializeElems w xs) = Except.ok xs := by
  intro xs
  induction xs with
  | nil =>
      intro n hn
      subst hn
      rfl
  | cons x xs ih =>
      intro n hn
      subst hn
      have hlen : (serializeElem (q := q) w x).length = w :=
        natToBytes_length w x.val
      simp only [serializeElems, List.flatMap_cons, List.length_cons]
      rw [deserializeElems,
        take_append_of_length (serializeElem w x) _ hlen,
        drop_append_of_length (serializeElem w x) _ hlen,
        deserializeElem_serializeElem hq hw x]
      have h2 := ih xs.length rfl
      rw [serializeElems] at h2
      rw [h2]

/-- C1: for all m1, m2 in [-B, B], encrypting both in the same group family
(G1, G2 or GT) under the public key derived from sec, combining with add
(resp. sub) and decrypting with sec yields exactly m1 + m2 (resp. m1 - m2)
whenever that value is in [-B, B]. -/
theorem add_sub_homomorphic_correct {q B : ℕ} (hq : 2 * B < q)
    (sec : SecretKey q) (m1 m2 : ℤ) (r1 r2 s1 s2 u1 u2 v1 v2 : ZMod q)
    (h1 : m1.natAbs ≤ B) (h2 : m2.natAbs ≤ B) :
    ((m1 + m2).natAbs ≤ B →
      ((sheEncG1 B (sheGetPublicKey sec) m1 r1).bind fun c1 =>
       (sheEncG1 B (sheGetPublicKey sec) m2 r2).bind fun c2 =>
        sheDecG1 B sec (sheAddG1 c1 c2)) = Except.ok (m1 + m2) ∧
      ((sheEncG2 B (sheGetPublicKey sec) m1 s1).bind fun c1 =>
       (sheEncG2 B (sheGetPublicKey sec) m2 s2).bind fun c2 =>
        sheDecG2 B sec (sheAddG2 c1 c2)) = Except.ok (m1 + m2) ∧
      ((sheEncGT B (sheGetPublicKey sec) m1 u1 u2).bind fun c1 =>
       (sheEncGT B (sheGetPublicKey sec) m2 v1 v2).bind fun c2 =>
        sheDecGT B sec (sheAddGT c1 c2)) = Except.ok (m1 + m2)) ∧
    ((m1 - m2).natAbs ≤ B →
      ((sheEncG1 B (sheGetPublicKey sec) m1 r1).bind fun c1 =>
       (sheEncG1 B (sheGetPublicKey sec) m2 r2).bind fun c2 =>
        sheDecG1 B sec (sheSubG1 c1 c2)) = Except.ok (m1 - m2) ∧
      ((sheEncG2 B (sheGetPublicKey sec) m1 s1).bind fun c1 =>
       (sheEncG2 B (sheGetPublicKey sec) m2 s2).bind fun c2 =>
        sheDecG2 B sec (sheSubG2 c1 c2)) = Except.ok (m1 - m2) ∧
      ((sheEncGT B (sheGetPublicKey sec) m1 u1 u2).bind fun c1 =>
       (sheEncGT B (sheGetPublicKey sec) m2 v1 v2).bind fun c2 =>
        sheDecGT B sec (sheSubGT c1 c2)) = Except.ok (m1 - m2)) := by
  refine ⟨fun hs => ⟨?_, ?_, ?_⟩, fun hs => ⟨?_, ?_, ?_⟩⟩ <;>
  · simp only [sheEncG1, sheEncG2, sheEncGT, sheGetPublicKey, gen, mul_one,
      h1, h2, if_true, Except.bind, sheAddG1, sheAddG2, sheAddGT, sheSubG1,
      sheSubG2, sheSubGT, sheDecG1, sheDecG2, sheDecGT]
    exact decResult_eq_ok hq hs (by push_cast; ring)

/-- C1 witness: with q = 11 and B = 2, adding encryptions of 1 and 1 in G1
under the key (2, 3) decrypts to 2. -/
theorem add_sub_homomorphic_correct_witness :
    ((sheEncG1 (q := 11) 2 (sheGetPublicKey ⟨2, 3⟩) 1 4).bind fun c1 =>
     (sheEncG1 (q := 11) 2 (sheGetPublicKey ⟨2, 3⟩) 1 5).bind fun c2 =>
      sheDecG1 2 ⟨2, 3⟩ (sheAddG1 c1 c2)) = Except.ok (1 + 1) :=
  ((add_sub_homomorphic_correct (by decide) ⟨2, 3⟩ 1 1 4 5 0 0 0 0 0 0
    (by decide) (by decide)).1 (by decide)).1

/-- C2: for m1 encrypted in G1 and m2 encrypted in G2 under the same key
pair, with m1 * m2 in [-B, B], the pairing lift sheMul produces a GT
ciphertext that decrypts under the secret key to exactly m1 * m2. -/
theorem pairing_mul_correct {q B : ℕ} (hq : 2 * B < q) (sec : SecretKey q)
    (m1 m2 : ℤ) (r1 r2 : ZMod q) (h1 : m1.natAbs ≤ B) (h2 : m2.natAbs ≤ B)
    (hs : (m1 * m2).natAbs ≤ B) :
    ((sheEncG1 B (sheGetPublicKey sec) m1 r1).bind fun c1 =>
     (sheEncG2 B (sheGetPublicKey sec) m2 r2).bind fun c2 =>
      sheDecGT B sec (sheMul c1 c2)) = Except.ok (m1 * m2) := by
  simp only [sheEncG1, sheEncG2, sheGetPublicKey, gen, mul_one, h1, h2,
    if_true, Except.bind, sheMul, sheDecGT]
  exact decResult_eq_ok hq hs (by push_cast; ring)

/-- C2 witness: with q = 11 and B = 6, the pairing product of encryptions
of 2 in G1 and 3 in G2 under the key (2, 3) decrypts to 6. -/
theorem pairing_mul_correct_witness :
    ((sheEncG1 (q := 13) 6 (sheGetPublicKey ⟨2, 3⟩) 2 4).bind fun c1 =>
     (sheEncG2 (q := 13) 6 (sheGetPublicKey ⟨2, 3⟩) 3 5).bind fun c2 =>
      sheDecGT 6 ⟨2, 3⟩ (sheMul c1 c2)) = Except.ok (2 * 3) :=
  pairing_mul_correct (by decide) ⟨2, 3⟩ 2 3 4 5 (by decide) (by decide)
    (by decide)

/-- C3: scalar multiplication of a ciphertext by a public integer k, in any
of the three group families, decrypts under the matching secret key to
k * m whenever k * m lies in [-B, B]. -/
theorem scalar_mul_correct {q B : ℕ} (hq : 2 * B < q) (sec : SecretKey q)
    (m k : ℤ) (r s u1 u2 : ZMod q) (hm : m.natAbs ≤ B)
    (hk : (k * m).natAbs ≤ B) :
    ((sheEncG1 B (sheGetPublicKey sec) m r).bind fun c =>
      sheDecG1 B sec (sheMulG1 c k)) = Except.ok (k * m) ∧
    ((sheEncG2 B (sheGetPublicKey sec) m s).bind fun c =>
      sheDecG2 B sec (sheMulG2 c k)) = Except.ok (k * m) ∧
    ((sheEncGT B (sheGetPublicKey sec) m u1 u2).bind fun c =>
      sheDecGT B sec (sheMulGT c k)) = Except.ok (k * m) := by
  refine ⟨?_, ?_, ?_⟩ <;>
  · simp only [sheEncG1, sheEncG2, sheEncGT, sheGetPublicKey, gen, mul_one,
      hm, if_true, Except.bind, sheMulG1, sheMulG2, sheMulGT, sheDecG1,
      sheDecG2, sheDecGT]
    exact decResult_eq_ok hq hk (by push_cast; ring)

/-- C3 witness: with q = 11 and B = 6, scaling an encryption of 2 in G1 by
k = 3 under the key (2, 3) decrypts to 6. -/
theorem scalar_mul_correct_witness :
    ((sheEncG1 (q := 13) 6 (sheGetPublicKey ⟨2, 3⟩) 2 4).bind fun c =>
      sheDecG1 6 ⟨2, 3⟩ (sheMulG1 c 3)) = Except.ok (3 * 2) :=
  (scalar_mul_correct (by decide) ⟨2, 3⟩ 2 3 4 0 0 0 (by decide)
    (by decide)).1

/-- C4: encryption of any integer outside [-B, B] into any of the three
group families fails with PlaintextRangeError and never returns a
ciphertext; in particular encrypting B + 1 fails. -/
theorem enc_out_of_range {q B : ℕ} (pk : PublicKey q) (m : ℤ)
    (r s u1 u2 : ZMod q) (hm : B < m.natAbs) :
    (sheEncG1 B pk m r = Except.error SheError.PlaintextRangeError ∧
     sheEncG2 B pk m s = Except.error SheError.PlaintextRangeError ∧
     sheEncGT B pk m u1 u2 = Except.error SheError.PlaintextRangeError) ∧
    (sheEncG1 B pk ((B : ℤ) + 1) r = Except.error SheError.PlaintextRangeError ∧
     sheEncG2 B pk ((B : ℤ) + 1) s = Except.error SheError.PlaintextRangeError ∧
     sheEncGT B pk ((B : ℤ) + 1) u1 u2 =
       Except.error SheError.PlaintextRangeError) := by
  have hm1 : ¬ (m.natAbs ≤ B) := by omega
  have hB1 : ¬ (((B : ℤ) + 1).natAbs ≤ B) := by omega
  simp only [sheEncG1, sheEncG2, sheEncGT, hm1, hB1, if_false, and_self]

/-- C4 witness: with q = 11 and B = 2, encrypting 3 and encrypting B + 1
fail with PlaintextRangeError in each family. -/
theorem enc_out_of_range_witness :
    sheEncG1 (q := 11) 2 ⟨2, 3⟩ 3 0 =
      Except.error SheError.PlaintextRangeError :=
  (enc_out_of_range (q := 11) (B := 2) ⟨2, 3⟩ 3 0 0 0 0 (by decide)).1.1

lemma intCast_ne_of_far {q B : ℕ} {j m : ℤ} (hj : j.natAbs ≤ B)
    (hm1 : B < m.natAbs) (hm2 : m.natAbs + B < q) :
    (j : ZMod q) ≠ (m : ZMod q) := by
  intro h
  haveI : NeZero q := ⟨by omega⟩
  have hd : (q : ℤ) ∣ j - m := by
    rwa [← sub_eq_zero, ← Int.cast_sub,
      ZMod.intCast_zmod_eq_zero_iff_dvd] at h
  rcases hd with ⟨k, hk⟩
  rcases Nat.eq_zero_or_pos k.natAbs with hk0 | hk1
  · have : k = 0 := by omega
    rw [this, mul_zero] at hk
    omega
  · have h2 : (j - m).natAbs = q * k.natAbs := by
      rw [hk, Int.natAbs_mul, Int.natAbs_ofNat]
    have h3 : q ≤ (j - m).natAbs := by
      calc q = q * 1 := by omega
        _ ≤ q * k.natAbs := Nat.mul_le_mul_left q hk1
        _ = (j - m).natAbs := h2.symm
    omega

/-- C5: a ciphertext of any family whose underlying plaintext m lies
outside [-B, B] (and below the wrap-around point of the group order, so
that its residue class has no representative in the range) fails decryption
with PlaintextOutOfRange after both search directions up to B are
exhausted; a wrong integer is never returned. -/
theorem dec_out_of_range {q B : ℕ} (sec : SecretKey q) (m : ℤ)
    (hm1 : B < m.natAbs) (hm2 : m.natAbs + B < q) :
    (∀ c : CipherTextG1 q, c.T - sec.x * c.S = (m : ZMod q) →
      sheDecG1 B sec c = Except.error SheError.PlaintextOutOfRange) ∧
    (∀ c : CipherTextG2 q, c.T - sec.y * c.S = (m : ZMod q) →
      sheDecG2 B sec c = Except.error SheError.PlaintextOutOfRange) ∧
    (∀ c : CipherTextGT q,
      c.g3 - sec.x * c.g1 - sec.y * c.g2 + sec.x * sec.y * c.g0 =
        (m : ZMod q) →
      sheDecGT B sec c = Except.error SheError.PlaintextOutOfRange) := by
  refine ⟨fun c hV => ?_, fun c hV => ?_, fun c hV => ?_⟩ <;>
  · simp only [sheDecG1, sheDecG2, sheDecGT]
    rw [hV]
    exact decResult_eq_error fun j hj => intCast_ne_of_far hj hm1 hm2

/-- C5 witness: with q = 11 and B = 2, a G1 ciphertext carrying plaintext 5
under the all-zero key fails decryption with PlaintextOutOfRange. -/
theorem dec_out_of_range_witness :
    sheDecG1 (q := 11) 2 ⟨0, 0⟩ ⟨0, 5⟩ =
      Except.error SheError.PlaintextOutOfRange :=
  (dec_out_of_range (q := 11) (B := 2) ⟨0, 0⟩ 5 (by decide)
    (by decide)).1 ⟨0, 5⟩ (by decide)

/-- C6: for every validly constructed ciphertext of each of the three group
families, and for secret and public keys, serialization to the fixed-length
canonical byte sequence followed by deserialization returns a value equal
to the original. -/
theorem serialize_roundtrip {q w : ℕ} (hq : 0 < q) (hw : q ≤ 256 ^ w) :
    (∀ c : CipherTextG1 q,
      CipherTextG1.deserialize q w (c.serialize w) = Except.ok c) ∧
    (∀ c : CipherTextG2 q,
      CipherTextG2.deserialize q w (c.serialize w) = Except.ok c) ∧
    (∀ c : CipherTextGT q,
      CipherTextGT.deserialize q w (c.serialize w) = Except.ok c) ∧
    (∀ k : SecretKey q,
      SecretKey.deserialize q w (k.serialize w) = Except.ok k) ∧
    (∀ k : PublicKey q,
      PublicKey.deserialize q w (k.serialize w) = Except.ok k) := by
  refine ⟨fun c => ?_, fun c => ?_, fun c => ?_, fun k => ?_, fun k => ?_⟩
  · have h := deserializeElems_serializeElems hq hw [c.S, c.T] 2 rfl
    rw [CipherTextG1.serialize, CipherTextG1.deserialize, h]
  · have h := deserializeElems_serializeElems hq hw [c.S, c.T] 2 rfl
    rw [CipherTextG2.serialize, CipherTextG2.deserialize, h]
  · have h := deserializeElems_serializeElems hq hw [c.g0, c.g1, c.g2, c.g3]
      4 rfl
    rw [CipherTextGT.serialize, CipherTextGT.deserialize, h]
  · have h := deserializeElems_serializeElems hq hw [k.x, k.y] 2 rfl
    rw [SecretKey.serialize, SecretKey.deserialize, h]
  · have h := deserializeElems_serializeElems hq hw [k.xP, k.yQ] 2 rfl
    rw [PublicKey.serialize, PublicKey.deserialize, h]

/-- C6 witness: with q = 11 and one byte per element, the G1 ciphertext
(3, 7) round-trips through serialize and deserialize. -/
theorem serialize_roundtrip_witness :
    CipherTextG1.deserialize 11 1 (CipherTextG1.serialize (q := 11) 1 ⟨3, 7⟩) =
      Except.ok ⟨3, 7⟩ :=
  (serialize_roundtrip (q := 11) (w := 1) (by decide) (by decide)).1 ⟨3, 7⟩

/-- C7: every CipherTextG1 and CipherTextG2 value is exactly a pair (S, T)
of elements of the respective group, every CipherTextGT value is exactly
four GT elements (g0, g1, g2, g3), and every homomorphic operation produces
a ciphertext of exactly that shape, component by component. -/
theorem ciphertext_shape {q : ℕ} :
    (∀ c : CipherTextG1 q, c = ⟨c.S, c.T⟩) ∧
    (∀ c : CipherTextG2 q, c = ⟨c.S, c.T⟩) ∧
    (∀ c : CipherTextGT q, c = ⟨c.g0, c.g1, c.g2, c.g3⟩) ∧
    (∀ x y : CipherTextG1 q, sheAddG1 x y = ⟨x.S + y.S, x.T + y.T⟩) ∧
    (∀ x y : CipherTextG2 q, sheAddG2 x y = ⟨x.S + y.S, x.T + y.T⟩) ∧
    (∀ x y : CipherTextGT q, sheAddGT x y =
      ⟨x.g0 + y.g0, x.g1 + y.g1, x.g2 + y.g2, x.g3 + y.g3⟩) ∧
    (∀ x y : CipherTextG1 q, sheSubG1 x y = ⟨x.S - y.S, x.T - y.T⟩) ∧
    (∀ x y : CipherTextG2 q, sheSubG2 x y = ⟨x.S - y.S, x.T - y.T⟩) ∧
    (∀ x y : CipherTextGT q, sheSubGT x y =
      ⟨x.g0 - y.g0, x.g1 - y.g1, x.g2 - y.g2, x.g3 - y.g3⟩) ∧
    (∀ (x : CipherTextG1 q) (k : ℤ), sheMulG1 x k =
      ⟨(k : ZMod q) * x.S, (k : ZMod q) * x.T⟩) ∧
    (∀ (x : CipherTextG2 q) (k : ℤ), sheMulG2 x k =
      ⟨(k : ZMod q) * x.S, (k : ZMod q) * x.T⟩) ∧
    (∀ (x : CipherTextGT q) (k : ℤ), sheMulGT x k =
      ⟨(k : ZMod q) * x.g0, (k : ZMod q) * x.g1,
       (k : ZMod q) * x.g2, (k : ZMod q) * x.g3⟩) ∧
    (∀ (x : CipherTextG1 q) (y : CipherTextG2 q), sheMul x y =
      ⟨x.S * y.S, x.S * y.T, x.T * y.S, x.T * y.T⟩) :=
  ⟨fun _ => rfl, fun _ => rfl, fun _ => rfl, fun _ _ => rfl, fun _ _ => rfl,
   fun _ _ => rfl, fun _ _ => rfl, fun _ _ => rfl, fun _ _ => rfl,
   fun _ _ => rfl, fun _ _ => rfl, fun _ _ => rfl, fun _ _ => rfl⟩

/-- C8: public-key derivation is a pure, deterministic, total function of
the secret key: equal secret keys give equal public keys, and the result is
exactly the pair of scalar multiples (x·P, y·Q) of the generators, sharing
no component with the secret key value. -/
theorem getPublicKey_deterministic {q : ℕ} :
    (∀ s1 s2 : SecretKey q, s1 = s2 →
      sheGetPublicKey s1 = sheGetPublicKey s2) ∧
    (∀ s : SecretKey q, sheGetPublicKey s = ⟨s.x * gen q, s.y * gen q⟩) :=
  ⟨fun _ _ h => by rw [h], fun _ => rfl⟩

/-- C8 witness: derivation applied twice to the secret key (1, 2) modulo 7
gives the same public key. -/
theorem getPublicKey_deterministic_witness :
    sheGetPublicKey (q := 7) ⟨1, 2⟩ = sheGetPublicKey (q := 7) ⟨1, 2⟩ :=
  (getPublicKey_deterministic (q := 7)).1 ⟨1, 2⟩ ⟨1, 2⟩ rfl

end SHE

namespace Mcl

/-- C10: SecretKey::clear always turns the key into SecretKey::zero, and
SecretKey::zero is the all-zero key: both scalar components are the
default Fr value, whose limbs are all zero. -/
theorem secretKey_clear_eq_zero :
    (∀ s : SecretKey, s.clear = SecretKey.zero) ∧
    SecretKey.zero.x = Fr.default ∧
    SecretKey.zero.y = Fr.default ∧
    (∀ i, Fr.default.d i = 0) :=
  ⟨fun _ => rfl, rfl, rfl, fun _ => rfl⟩

end Mcl
